import Mathlib

/-!
# micro.build runner: the dispatcher (`main.c`) and the worker (`find.c`)

A shallow embedding of the two C programs under `src/runner/`.

* A C string is a Lean `String`; one Lean `Char` stands for one C `char`.  Strings are
  values.  The two places where main.c depends on storage are kept visible: the string it
  reads from a block it has already given to `free` is what the surroundings leave there
  (`Env.released`), and a `sprintf` gives the text it formats, whether that text fits its
  array being recorded apart (`Run.overrun`).
* A process run is summarised by what it wrote to standard output and to the error stream and
  by how it ended (`Outcome`); an `abort()` carries the source line that called it.
* The C library calls the programs make are modelled after the GNU C library:
  `getopt`/`getopt_long` (`getopt_internal`), `dirname`.  `realpath` and `execvp` depend on
  the file system and are fields of the environment `Env`.  Whether `getopt` permutes the
  arguments (the GNU default) or stops at the first non-option (`POSIXLY_CORRECT`) is the
  parameter `posixly_correct` of both programs; every claim is settled for both.
-/

set_option autoImplicit false

namespace Runner

/-! ## Process results -/

/-- How a process ended: `main` returned `n`, or `abort()` was called at the given source
line (the process is killed by SIGABRT, which is never exit code 0). -/
inductive Exit
  | code (n : Int)
  | abort (line : Nat)
deriving DecidableEq

/-- What a finished process wrote to standard output and to the error stream, and how it
ended. -/
structure Outcome where
  out : String
  err : String
  exit : Exit
deriving DecidableEq

/-! ## getopt(3) and getopt_long(3) -/

/-- The `struct option` of `<getopt.h>`.  `has_arg` is `no_argument` (0),
`required_argument` (1) or `optional_argument` (2); `flag` is `none` for a NULL pointer and
the address of the flag variable otherwise. -/
structure option where
  name : String
  has_arg : Nat
  flag : Option Nat
  val : Int
deriving DecidableEq

/-- The scanning state `getopt` keeps between calls (`optind`, `optarg`, the private
`nextchar`, and the argument vector it permutes).

The vector is kept in four pieces: `argv0`, then the elements already digested as options
(`scanned`), then the non-options skipped over so far (`nonopts`), then the elements not yet
looked at (`rest`).  `nextchar` holds the characters of the short-option cluster being
scanned that are still to be read; the element it comes from already counts as scanned. -/
structure GetoptData where
  argc : Nat
  argv0 : String
  scanned : List String
  nonopts : List String
  rest : List String
  nextchar : List Char
  optarg : Option String

/-- The state before the first call: `optind = 1`, nothing scanned. -/
def getopt_start (argv : List String) : GetoptData :=
  ⟨argv.length, argv.headD "", [], [], argv.tail, [], none⟩

/-- The argument vector as `getopt` has permuted it. -/
def GetoptData.argv (d : GetoptData) : List String :=
  if d.argc < 1 then [] else d.argv0 :: (d.scanned ++ d.nonopts ++ d.rest)

/-- The index `optind` of the next element to be processed. -/
def GetoptData.optind (d : GetoptData) : Nat :=
  1 + d.scanned.length

/-- What one call of `getopt` gives back: the return value `ch`, the new scanning state and
the text it printed on the error stream (`opterr` is left at its default, 1). -/
structure GetoptRet where
  ch : Int
  d : GetoptData
  msg : String

/-- A C `char` as the `int` that `getopt` returns. -/
def CH (c : Char) : Int := (c.toNat : Int)

/-- How `getopt` treats non-options. -/
inductive Ordering
  | REQUIRE_ORDER
  | PERMUTE
  | RETURN_IN_ORDER
deriving DecidableEq

/-- The ordering `getopt` selects when it initialises: a leading `-` or `+` of the option
string, else the environment variable `POSIXLY_CORRECT`. -/
def ordering (optstring : String) (posixly_correct : Bool) : Ordering :=
  match optstring.data with
  | '-' :: _ => .RETURN_IN_ORDER
  | '+' :: _ => .REQUIRE_ORDER
  | _ => if posixly_correct then .REQUIRE_ORDER else .PERMUTE

/-- The option string without its leading `-` or `+`. -/
def optchars (optstring : String) : List Char :=
  match optstring.data with
  | '-' :: cs => cs
  | '+' :: cs => cs
  | cs => cs

/-- The C `strchr`: the suffix of `s` starting at the first `c`, if any. -/
def strchr (s : List Char) (c : Char) : Option (List Char) :=
  match s with
  | [] => none
  | x :: xs => if x = c then some (x :: xs) else strchr xs c

/-- The test `NONOPTION_P` of getopt.c:
`argv[optind][0] != '-' || argv[optind][1] == '\0'`. -/
def NONOPTION_P (s : String) : Bool :=
  match s.data with
  | '-' :: _ :: _ => false
  | _ => true

/-- Handling of the short option character `c`, with `cs` the characters after it in the
same element (the last part of `_getopt_internal_r`).  The `W;` extension is left out: no
option string of this program has it. -/
def short_option (optstring : String) (d : GetoptData) (c : Char) (cs : List Char) :
    GetoptRet :=
  let print_errors : Bool := (optchars optstring).head? != some ':'
  let invalid : GetoptRet :=
    ⟨CH '?', { d with nextchar := cs },
      if print_errors then d.argv0 ++ ": invalid option -- \'" ++ String.singleton c ++ "\'\n"
      else ""⟩
  match strchr (optchars optstring) c with
  | none => invalid
  | some temp =>
    if c = ':' ∨ c = ';' then invalid
    else
      match temp with
      | _ :: ':' :: ':' :: _ =>
        -- an option that accepts an argument optionally
        if cs ≠ [] then ⟨CH c, { d with nextchar := [], optarg := some ⟨cs⟩ }, ""⟩
        else ⟨CH c, { d with nextchar := [], optarg := none }, ""⟩
      | _ :: ':' :: _ =>
        -- an option that requires an argument
        if cs ≠ [] then ⟨CH c, { d with nextchar := [], optarg := some ⟨cs⟩ }, ""⟩
        else
          match d.rest with
          | [] =>
            ⟨if (optchars optstring).head? = some ':' then CH ':' else CH '?',
              { d with nextchar := [] },
              if print_errors then
                d.argv0 ++ ": option requires an argument -- \'" ++ String.singleton c ++ "\'\n"
              else ""⟩
          | a :: as =>
            ⟨CH c, { d with nextchar := [], optarg := some a, rest := as,
                            scanned := d.scanned ++ [a] }, ""⟩
      | _ => ⟨CH c, { d with nextchar := cs }, ""⟩

/-- The long options that `name` abbreviates (`strncmp (p->name, nextchar, namelen) == 0`),
in table order. -/
def abbreviated (longopts : List option) (name : List Char) : List option :=
  longopts.filter (fun p => name.isPrefixOf p.name.data)

/-- The end of `process_long_option` of getopt.c, once the long option `p` has been found:
`nameend` is what follows the name in the element (empty, or `=` and a value). -/
def long_option_found (optstring : String) (d : GetoptData) (nameend : List Char)
    (p : option) : GetoptRet :=
  let print_errors : Bool := (optchars optstring).head? != some ':'
  let finish (d1 : GetoptData) : GetoptRet :=
    match p.flag with
    | some _ => ⟨0, d1, ""⟩
    | none => ⟨p.val, d1, ""⟩
  match nameend with
  | _ :: value =>
    if p.has_arg ≠ 0 then finish { d with optarg := some ⟨value⟩ }
    else
      ⟨CH '?', d,
        if print_errors then
          d.argv0 ++ ": option '--" ++ p.name ++ "' doesn't allow an argument\n"
        else ""⟩
  | [] =>
    if p.has_arg = 1 then
      match d.rest with
      | a :: as =>
        finish { d with optarg := some a, rest := as, scanned := d.scanned ++ [a] }
      | [] =>
        ⟨if (optchars optstring).head? = some ':' then CH ':' else CH '?', d,
          if print_errors then
            d.argv0 ++ ": option '--" ++ p.name ++ "' requires an argument\n"
          else ""⟩
    else finish d

/-- The function `process_long_option` of getopt.c for an element `--text` (`long_only` is
0): `text` is split at its first `=`, the name is looked up (an exact match first, then as
an abbreviation), and the argument is taken. -/
def process_long_option (optstring : String) (longopts : List option) (d : GetoptData)
    (text : List Char) : GetoptRet :=
  let print_errors : Bool := (optchars optstring).head? != some ':'
  let name := text.takeWhile (fun x => x != '=')
  let nameend := text.dropWhile (fun x => x != '=')
  match longopts.find? (fun p => p.name.data == name) with
  | some p => long_option_found optstring d nameend p
  | none =>
    match abbreviated longopts name with
    | [] =>
      ⟨CH '?', d,
        if print_errors then
          d.argv0 ++ ": unrecognized option '--" ++ String.mk text ++ "'\n"
        else ""⟩
    | p :: ps =>
      let ambig := ps.filter
        (fun q => q.has_arg ≠ p.has_arg ∨ q.flag ≠ p.flag ∨ q.val ≠ p.val)
      if ambig = [] then long_option_found optstring d nameend p
      else
        ⟨CH '?', d,
          if print_errors then
            d.argv0 ++ ": option '--" ++ String.mk text ++ "' is ambiguous; possibilities:"
              ++ String.join ((p :: ambig).map (fun q => " '--" ++ q.name ++ "'")) ++ "\n"
          else ""⟩

/-- In `PERMUTE` ordering `getopt` first skips the non-options in front of the next option
and adds them to the ones skipped before. -/
def skip_nonoptions (ord : Ordering) (d : GetoptData) : GetoptData :=
  if ord = .PERMUTE then
    { d with nonopts := d.nonopts ++ d.rest.takeWhile NONOPTION_P,
             rest := d.rest.dropWhile NONOPTION_P }
  else d

/-- The part of `_getopt_internal_r` that looks at the next element of the vector, when no
short-option cluster is being scanned. -/
def next_element (ord : Ordering) (optstring : String) (longopts : Option (List option))
    (d : GetoptData) : GetoptRet :=
  match d.rest with
  | [] =>
    -- all elements done: optind backs over the non-options that were skipped
    ⟨-1, { d with nonopts := [], rest := d.nonopts }, ""⟩
  | e :: es =>
    match e.data with
    | '-' :: c :: cs =>
      if c = '-' ∧ cs = [] then
        -- the element "--" ends the options; everything after it is a non-option
        ⟨-1, { d with scanned := d.scanned ++ [e], nonopts := [], rest := d.nonopts ++ es }, ""⟩
      else
        let d2 : GetoptData := { d with scanned := d.scanned ++ [e], rest := es }
        match longopts with
        | some table =>
          if c = '-' then process_long_option optstring table d2 cs
          else short_option optstring d2 c cs
        | none => short_option optstring d2 c cs
    | _ =>
      -- a non-option that was not permuted
      if ord = .REQUIRE_ORDER then ⟨-1, d, ""⟩
      else ⟨1, { d with scanned := d.scanned ++ [e], rest := es, optarg := some e }, ""⟩

/-- One call of `getopt` (`longopts = none`) or `getopt_long` (`longopts = some table`):
the function `_getopt_internal_r` of getopt.c with `long_only = 0`. -/
def getopt_internal (posixly_correct : Bool) (optstring : String)
    (longopts : Option (List option)) (d0 : GetoptData) : GetoptRet :=
  if d0.argc < 1 then ⟨-1, d0, ""⟩
  else
    let d : GetoptData := { d0 with optarg := none }
    match d.nextchar with
    | c :: cs => short_option optstring d c cs
    | [] =>
      let ord := ordering optstring posixly_correct
      next_element ord optstring longopts (skip_nonoptions ord d)

/-- The library call `getopt(argc, argv, optstring)`. -/
def getopt (posixly_correct : Bool) (optstring : String) (d : GetoptData) : GetoptRet :=
  getopt_internal posixly_correct optstring none d

/-- The library call `getopt_long(argc, argv, optstring, longopts, &opt_idx)`. -/
def getopt_long (posixly_correct : Bool) (optstring : String) (longopts : List option)
    (d : GetoptData) : GetoptRet :=
  getopt_internal posixly_correct optstring (some longopts) d

/-- Size of a list of arguments: its characters, plus one for each element. -/
def weight (l : List String) : Nat :=
  (l.map (fun s => s.length + 1)).sum

/-- Size of what is left to scan; every call of `getopt` that finds an option makes it
smaller. -/
def GetoptData.todo (d : GetoptData) : Nat :=
  d.nextchar.length + weight d.rest

/-! ### Every call that finds an option makes progress -/

theorem weight_cons (a : String) (l : List String) :
    weight (a :: l) = a.length + 1 + weight l := by
  simp [weight]

theorem weight_dropWhile_le (p : String → Bool) (l : List String) :
    weight (l.dropWhile p) ≤ weight l := by
  induction l with
  | nil => simp
  | cons a l ih =>
    rw [List.dropWhile_cons]
    split
    · rw [weight_cons]; omega
    · exact Nat.le_refl _

theorem short_option_todo (optstring : String) (d : GetoptData) (c : Char)
    (cs : List Char) :
    (short_option optstring d c cs).d.todo ≤ cs.length + weight d.rest := by
  unfold short_option
  simp only
  repeat' split
  all_goals simp [GetoptData.todo, weight_cons, *]
  all_goals omega

theorem process_long_option_todo (optstring : String) (longopts : List option)
    (d : GetoptData) (text : List Char) :
    (process_long_option optstring longopts d text).d.todo ≤ d.todo := by
  unfold process_long_option long_option_found
  simp only
  repeat' split
  all_goals simp [GetoptData.todo, weight_cons, *]

theorem next_element_todo (ord : Ordering) (optstring : String)
    (longopts : Option (List option)) (d : GetoptData) (hn : d.nextchar = [])
    (h : (next_element ord optstring longopts d).ch ≠ -1) :
    (next_element ord optstring longopts d).d.todo < weight d.rest := by
  obtain ⟨argc, argv0, scanned, nonopts, rest, nextchar, optarg⟩ := d
  simp only at hn
  subst hn
  revert h
  unfold next_element
  split
  · intro h; simp at h
  · rename_i e es he
    simp only at he
    subst he
    simp only [weight_cons]
    split
    · rename_i c cs hd
      have hlen : e.length = cs.length + 2 := by simp [String.length, hd]
      split
      · intro h; simp at h
      · have h1 := short_option_todo optstring ⟨argc, argv0, scanned ++ [e], nonopts, es, [], optarg⟩ c cs
        simp only [GetoptData.todo] at h1
        repeat' split
        · intro _
          rename_i table _ _
          have h2 := process_long_option_todo optstring table
            ⟨argc, argv0, scanned ++ [e], nonopts, es, [], optarg⟩ cs
          simp only [GetoptData.todo, List.length_nil] at h2 ⊢
          omega
        all_goals intro _
        all_goals simp only [GetoptData.todo] at h1 ⊢
        all_goals omega
    · split
      · intro h; simp at h
      · intro _; simp [GetoptData.todo]

theorem getopt_internal_todo (posixly_correct : Bool) (optstring : String)
    (longopts : Option (List option)) (d : GetoptData)
    (h : (getopt_internal posixly_correct optstring longopts d).ch ≠ -1) :
    (getopt_internal posixly_correct optstring longopts d).d.todo < d.todo := by
  revert h
  unfold getopt_internal
  simp only
  split
  · intro h; simp at h
  · split
    · rename_i c cs hn
      intro _
      have := short_option_todo optstring { d with optarg := none } c cs
      simp only [GetoptData.todo, hn, List.length_cons] at this ⊢
      omega
    · rename_i hn
      intro h
      have hn2 : (skip_nonoptions (ordering optstring posixly_correct)
          { d with optarg := none }).nextchar = [] := by
        unfold skip_nonoptions; split <;> simpa using hn
      have := next_element_todo _ optstring longopts _ hn2 h
      have hw : weight (skip_nonoptions (ordering optstring posixly_correct)
          { d with optarg := none }).rest ≤ weight d.rest := by
        unfold skip_nonoptions; split
        · exact weight_dropWhile_le _ _
        · exact Nat.le_refl _
      simp only [GetoptData.todo] at this ⊢
      omega

/-! ## The worker, `find.c` -/

/-- The table `opts` of find.c: the one long option `name`, with a required argument, a
NULL flag and the value `'n'`. -/
def opts : List option :=
  [⟨"name", 1, none, CH 'n'⟩]

/-- The `while` loop of find.c (lines 17-35) followed by the rest of `main` (lines 42-49),
from scanning state `d`, with the current value of `name` (`none` is NULL) and the text
written to the error stream so far.  Lines 38-40 (`argc -= optind; argv += optind;`) set
values that are not read again. -/
def find_loop (posixly_correct : Bool) (d : GetoptData) (name : Option String)
    (err : String) : Outcome :=
  let r := getopt_long posixly_correct "n:" opts d
  if _h : r.ch = -1 then
    match name with
    | none => ⟨"", err ++ r.msg ++ "Usage: find --name pattern\n", .abort 44⟩
    | some pattern =>
      ⟨"Looking for the entity \"" ++ pattern ++ "\"...\n", err ++ r.msg, .code 0⟩
  else if r.ch = CH 'n' then
    find_loop posixly_correct r.d r.d.optarg
      (err ++ r.msg ++ "n -> " ++ r.d.optarg.getD "(null)" ++ "\n")
  else if r.ch = CH '?' then ⟨"", err ++ r.msg ++ "?\n", .abort 25⟩
  else if r.ch = 0 then ⟨"", err ++ r.msg, .abort 28⟩
  else ⟨"", err ++ r.msg ++ "ch was: " ++ toString r.ch ++ "\n", .abort 33⟩
termination_by d.todo
decreasing_by exact getopt_internal_todo _ _ _ _ (by assumption)

/-- The program find.c: `main(argc, argv)` with `argv` the whole argument vector, the
invocation name included. -/
def find_main (posixly_correct : Bool) (argv : List String) : Outcome :=
  find_loop posixly_correct (getopt_start argv) none ""

/-! ## The dispatcher, `main.c` -/

/-- A string without its trailing slashes. -/
def strip_slashes (s : List Char) : List Char :=
  (s.reverse.dropWhile (fun x => x == '/')).reverse

/-- The library call `dirname(3)`, after the GNU C library (the value its pointer code
computes): trailing slashes do not count, the last component and the slashes before it are
cut off, `.` stands for no directory part and `/` (or `//` for exactly two leading slashes)
for the root. -/
def dirname (path : String) : String :=
  let t := strip_slashes path.data
  if t = [] then
    if path.data = [] then "." else if path.data.length = 2 then "//" else "/"
  else
    let u := (t.reverse.dropWhile (fun x => x != '/')).reverse
    if u = [] then "."
    else
      let v := strip_slashes u
      if v = [] then (if u.length = 2 then "//" else "/") else ⟨v⟩

/-- What the dispatcher needs from its surroundings: the size `PATH_MAX` of `<limits.h>`;
`realpath(path, NULL)` (`none` when it returns NULL); `released s`, the string that is read
at the start of a heap block that held the string `s` once the block has been given to
`free` (the identity for an allocator that leaves a released block as it was; the GNU
allocator stores a link and a key in its first sixteen bytes); and `execvp(file, argv)`:
`none` when the call fails and returns, `some o` when the process image is replaced and the
process goes on to write and end as `o` says. -/
structure Env where
  PATH_MAX : Nat
  realpath : String → Option String
  released : String → String
  execvp : String → List String → Option Outcome

/-- One call of `execvp`. -/
structure ExecCall where
  file : String
  argv : List String
deriving DecidableEq

/-- The record of one run of the dispatcher: the `execvp` calls it made, in order; whether
`sprintf` stored more bytes than the array `find_path` has; and what the process wrote and
how it ended. -/
structure Run where
  calls : List ExecCall
  overrun : Bool
  result : Outcome
deriving DecidableEq

/-- The `while` loop of main.c (lines 21-27): every option is ignored.  Gives the scanning
state at the end and the text `getopt` wrote to the error stream. -/
def runner_loop (posixly_correct : Bool) (d : GetoptData) (err : String) :
    GetoptData × String :=
  let r := getopt posixly_correct "" d
  if _h : r.ch = -1 then (r.d, err ++ r.msg)
  else runner_loop posixly_correct r.d (err ++ r.msg)
termination_by d.todo
decreasing_by exact getopt_internal_todo _ _ _ _ (by assumption)

/-- Lines 14-17 of main.c: the text `sprintf(find_path, "%s/find", dir_path)` formats.
The GNU `dirname` cuts its argument short in place and returns it whenever the path has a
`/` (else it returns a static `.`), so `dir_path` points into the block `binary_path`, which
line 15 gives to `free` before line 17 reads it: what `%s` sees there is `released`. -/
def runner_find_path (env : Env) (binary_path : String) : String :=
  let dir_path := dirname binary_path
  -- free(binary_path);
  let seen := if '/' ∈ binary_path.data then env.released dir_path else dir_path
  seen ++ "/find"

/-- The number of bytes `sprintf` stores for the text `find_path`, the terminating NUL
included. -/
def sprintf_size (find_path : String) : Nat :=
  find_path.length + 1

/-- The program main.c: `main(argc, argv)` with `argv` the whole argument vector.
`realpath` of a NULL `argv[0]` fails.  `find_path` is the text `sprintf` formats, and
`overrun` says whether that text and its NUL are more than the `PATH_MAX` bytes of the
array. -/
def runner_main (env : Env) (posixly_correct : Bool) (argv : List String) : Run :=
  match argv.head?.bind env.realpath with
  | none => ⟨[], false, ⟨"", "Failed to find path to binary.\n", .abort 12⟩⟩
  | some binary_path =>
    let find_path := runner_find_path env binary_path
    let overrun : Bool := decide (env.PATH_MAX < sprintf_size find_path)
    let (d, err) := runner_loop posixly_correct (getopt_start argv) ""
    -- argc -= optind; argv += optind;
    let argv1 := d.argv.drop d.optind
    match env.execvp find_path argv1 with
    | some o => ⟨[⟨find_path, argv1⟩], overrun, ⟨o.out, err ++ o.err, o.exit⟩⟩
    | none =>
      ⟨[⟨find_path, argv1⟩], overrun,
        ⟨"", err ++ "execvp(" ++ find_path ++ ") failed!\n", .abort 37⟩⟩

/-- The argument vector the dispatcher hands to `execvp` (line 34): `argv + optind` after
its own option loop. -/
def runner_forwarded (posixly_correct : Bool) (argv : List String) : List String :=
  (runner_loop posixly_correct (getopt_start argv) "").1.argv.drop
    (runner_loop posixly_correct (getopt_start argv) "").1.optind

/-! ## Concrete surroundings -/

/-- A system in which the dispatcher is installed as `/usr/bin/runner` next to the worker
`/usr/bin/find`; `PATH_MAX` is 4096 as on Linux, and released blocks are left as they
were. -/
def env_installed : Env :=
  ⟨4096, fun _ => some "/usr/bin/runner", fun s => s,
    fun file argv => if file = "/usr/bin/find" then some (find_main false argv) else none⟩

/-- The same installation on a system whose allocator, like the GNU one, writes over the
start of a released block: what is read there afterwards is a few bytes of a stored link,
for instance `=6|X` and the byte 5. -/
def env_overwriting : Env :=
  ⟨4096, fun _ => some "/usr/bin/runner", fun _ => "=6|X\x05",
    fun file argv => if file = "/usr/bin/find" then some (find_main false argv) else none⟩

/-- A system in which the dispatcher is installed as `/usr/bin/runner` and no program can be
started. -/
def env_alone : Env :=
  ⟨4096, fun _ => some "/usr/bin/runner", fun s => s, fun _ _ => none⟩

/-- A system in which no path resolves. -/
def env_unresolved : Env :=
  ⟨4096, fun _ => none, fun s => s, fun _ argv => some (find_main false argv)⟩

/-- A directory 4092 characters long: fifteen components of 255 letters and one of 251,
each within the 255 bytes a file name may have. -/
def long_dir : List Char :=
  (List.replicate 15 ('/' :: List.replicate 255 'a')).flatten ++ '/' :: List.replicate 251 'b'

/-- The canonical path of a dispatcher installed as `r` in `long_dir`: 4094 characters. -/
def long_path : String :=
  ⟨long_dir ++ ['/', 'r']⟩

/-- A Linux system (`PATH_MAX` is 4096) in which the dispatcher is installed at `long_path`
and released blocks are left as they were. -/
def env_long : Env :=
  ⟨4096, fun _ => some long_path, fun s => s, fun _ _ => none⟩

/-! ## Shapes of worker arguments -/

/-- The element is the name option with its argument attached: `-nX` with `X` not empty, or
`--N=X` with `N` the word `name` or an abbreviation of it. -/
def name_attached (e : String) : Bool :=
  match e.data with
  | '-' :: '-' :: text =>
    text.contains '=' && (text.takeWhile (fun x => x != '=')).isPrefixOf "name".data
  | '-' :: 'n' :: _ :: _ => true
  | _ => false

/-- The element is the name option without an argument of its own, so that the next
element is its argument: `-n`, or `--N` with `N` the word `name` or an abbreviation of it. -/
def name_detached (e : String) : Bool :=
  match e.data with
  | '-' :: '-' :: c :: cs => !(c :: cs).contains '=' && (c :: cs).isPrefixOf "name".data
  | ['-', 'n'] => true
  | _ => false

/-- The element is an option other than the name option: `--T` or `--T=X` with `T` neither
`name` nor an abbreviation of it, or a cluster `-c...` whose first letter `c` is not `n`. -/
def other_option (e : String) : Bool :=
  match e.data with
  | '-' :: '-' :: c :: cs =>
    !((c :: cs).takeWhile (fun x => x != '=')).isPrefixOf "name".data
  | '-' :: c :: _ => c != 'n' && c != '-'
  | _ => false

/-- The arguments `l` are name options, each with its argument (attached, or the next
element, whatever that element is); when `getopt` permutes (no `POSIXLY_CORRECT`),
non-options may stand between them. -/
def name_options (posixly_correct : Bool) : List String → Bool
  | [] => true
  | e :: rest =>
    if name_attached e then name_options posixly_correct rest
    else if name_detached e then
      match rest with
      | [] => false
      | _ :: rest1 => name_options posixly_correct rest1
    else if !posixly_correct && NONOPTION_P e then name_options posixly_correct rest
    else false

/-- The element `bad`, followed by the elements `post`, is an option error: an option other
than the name option, or the name option as the last element, with no argument after it. -/
def option_error (bad : String) (post : List String) : Bool :=
  other_option bad || (name_detached bad && post.isEmpty)

/-! ## The worker: what its option scanner can return -/

theorem short_option_find_ch (d : GetoptData) (c : Char) (cs : List Char) :
    (short_option "n:" d c cs).ch = CH 'n' ∨ (short_option "n:" d c cs).ch = CH '?' := by
  unfold short_option
  by_cases hc : 'n' = c
  · subst hc
    simp only [optchars, strchr]
    repeat' split
    all_goals simp_all
  · by_cases hc2 : ':' = c
    · subst hc2
      simp [optchars, strchr]
    · simp [optchars, strchr, hc, hc2]

theorem long_option_found_find_ch (d : GetoptData) (nameend : List Char) :
    (long_option_found "n:" d nameend ⟨"name", 1, none, CH 'n'⟩).ch = CH 'n' ∨
      (long_option_found "n:" d nameend ⟨"name", 1, none, CH 'n'⟩).ch = CH '?' := by
  unfold long_option_found
  simp only [optchars]
  repeat' split
  all_goals simp_all

theorem process_long_option_find_ch (d : GetoptData) (text : List Char) :
    (process_long_option "n:" opts d text).ch = CH 'n' ∨
      (process_long_option "n:" opts d text).ch = CH '?' := by
  unfold process_long_option
  simp only
  split
  · rename_i p hp
    have := List.mem_of_find?_eq_some hp
    simp only [opts, List.mem_singleton] at this
    subst this
    exact long_option_found_find_ch _ _
  · split
    · simp
    · rename_i p ps hp
      have : p ∈ abbreviated opts (List.takeWhile (fun x => x != '=') text) := by
        rw [hp]; exact List.mem_cons_self _ _
      have := (List.mem_filter.1 this).1
      simp only [opts, List.mem_singleton] at this
      subst this
      split
      · exact long_option_found_find_ch _ _
      · simp

theorem dropWhile_head_false {α : Type} (p : α → Bool) (l : List α) (a : α) (as : List α)
    (h : l.dropWhile p = a :: as) : p a = false := by
  induction l with
  | nil => simp at h
  | cons x xs ih =>
    rw [List.dropWhile_cons] at h
    split at h
    · exact ih h
    · rename_i hx
      simp only [List.cons.injEq] at h
      rw [← h.1]
      simpa using hx

theorem NONOPTION_P_of_data (e : String)
    (h : ∀ (c : Char) (cs : List Char), ¬e.data = '-' :: c :: cs) : NONOPTION_P e = true := by
  unfold NONOPTION_P
  split
  · rename_i c cs hd
    exact absurd hd (h _ _)
  · rfl

theorem next_element_find_ch (posixly_correct : Bool) (d : GetoptData) :
    (next_element (ordering "n:" posixly_correct) "n:" (some opts)
        (skip_nonoptions (ordering "n:" posixly_correct) d)).ch = CH 'n' ∨
      (next_element (ordering "n:" posixly_correct) "n:" (some opts)
        (skip_nonoptions (ordering "n:" posixly_correct) d)).ch = CH '?' ∨
      (next_element (ordering "n:" posixly_correct) "n:" (some opts)
        (skip_nonoptions (ordering "n:" posixly_correct) d)).ch = -1 := by
  unfold next_element
  split
  · simp
  · rename_i e es he
    split
    · split
      · simp
      · simp only
        split
        · rcases process_long_option_find_ch
            { skip_nonoptions (ordering "n:" posixly_correct) d with
              scanned := (skip_nonoptions (ordering "n:" posixly_correct) d).scanned ++ [e],
              rest := es } _ with h | h
          · exact Or.inl h
          · exact Or.inr (Or.inl h)
        · rcases short_option_find_ch
            { skip_nonoptions (ordering "n:" posixly_correct) d with
              scanned := (skip_nonoptions (ordering "n:" posixly_correct) d).scanned ++ [e],
              rest := es } _ _ with h | h
          · exact Or.inl h
          · exact Or.inr (Or.inl h)
    · rename_i hnon
      have hp := NONOPTION_P_of_data e hnon
      cases posixly_correct
      · exfalso
        have : (d.rest.dropWhile NONOPTION_P) = e :: es := by
          simpa [skip_nonoptions, ordering] using he
        have := dropWhile_head_false _ _ _ _ this
        rw [hp] at this
        exact Bool.noConfusion this
      · simp [ordering]

theorem getopt_long_find_ch (posixly_correct : Bool) (d : GetoptData) :
    (getopt_long posixly_correct "n:" opts d).ch = CH 'n' ∨
      (getopt_long posixly_correct "n:" opts d).ch = CH '?' ∨
      (getopt_long posixly_correct "n:" opts d).ch = -1 := by
  unfold getopt_long getopt_internal
  simp only
  split
  · simp
  · split
    · rcases short_option_find_ch { d with optarg := none } _ _ with h | h
      · exact Or.inl h
      · exact Or.inr (Or.inl h)
    · exact next_element_find_ch posixly_correct _

/-! ## The model at work

Runs of the worker on small argument vectors, as the GNU `getopt_long` documents them: the
argument attached (`-nfoo`, `--name=foo`), a long option abbreviated, non-options permuted to
the end (or ending the scan under `POSIXLY_CORRECT`), the last name option winning, and the
three messages for a bad option. -/

theorem find_main_examples :
    find_main false ["find", "-nfoo"]
        = ⟨"Looking for the entity \"foo\"...\n", "n -> foo\n", .code 0⟩ ∧
      find_main false ["find", "--name=foo"]
        = ⟨"Looking for the entity \"foo\"...\n", "n -> foo\n", .code 0⟩ ∧
      find_main false ["find", "--na", "foo"]
        = ⟨"Looking for the entity \"foo\"...\n", "n -> foo\n", .code 0⟩ ∧
      find_main false ["find", "bar", "-n", "foo"]
        = ⟨"Looking for the entity \"foo\"...\n", "n -> foo\n", .code 0⟩ ∧
      find_main true ["find", "bar", "-n", "foo"]
        = ⟨"", "Usage: find --name pattern\n", .abort 44⟩ ∧
      find_main false ["find", "-n", "a", "--name", "b"]
        = ⟨"Looking for the entity \"b\"...\n", "n -> a\nn -> b\n", .code 0⟩ ∧
      find_main false ["find", "-n"]
        = ⟨"", "find: option requires an argument -- 'n'\n?\n", .abort 25⟩ ∧
      find_main false ["find", "--name"]
        = ⟨"", "find: option '--name' requires an argument\n?\n", .abort 25⟩ ∧
      find_main false ["find", "--bogus"]
        = ⟨"", "find: unrecognized option '--bogus'\n?\n", .abort 25⟩ := by
  simp [find_main, find_loop, getopt_start, getopt_long, getopt_internal, next_element,
    skip_nonoptions, ordering, process_long_option, long_option_found, short_option, opts,
    optchars, strchr, CH, abbreviated, NONOPTION_P]
  decide

/-! ## The worker: claims -/

theorem find_main_name (posixly_correct : Bool) (find X : String) :
    find_main posixly_correct [find, "--name", X]
        = ⟨"Looking for the entity \"" ++ X ++ "\"...\n", "n -> " ++ X ++ "\n", .code 0⟩ ∧
      find_main posixly_correct [find, "-n", X]
        = ⟨"Looking for the entity \"" ++ X ++ "\"...\n", "n -> " ++ X ++ "\n", .code 0⟩ := by
  cases posixly_correct <;>
    simp [find_main, find_loop, getopt_start, getopt_long, getopt_internal, next_element,
      skip_nonoptions, ordering, process_long_option, long_option_found, short_option, opts,
      optchars, strchr, CH, abbreviated, NONOPTION_P]

/-- C1 (worker success): for every non-empty string `X` and every invocation name, the worker
run with the arguments `--name X` or `-n X` returns 0 from `main` and writes to standard
output exactly the line `Looking for the entity "X"...` and a newline (the error stream gets
the trace line `n -> X`). -/
theorem find_success (posixly_correct : Bool) (find X : String) (_hX : X ≠ "") :
    find_main posixly_correct [find, "--name", X]
        = ⟨"Looking for the entity \"" ++ X ++ "\"...\n", "n -> " ++ X ++ "\n", .code 0⟩ ∧
      find_main posixly_correct [find, "-n", X]
        = ⟨"Looking for the entity \"" ++ X ++ "\"...\n", "n -> " ++ X ++ "\n", .code 0⟩ :=
  find_main_name posixly_correct find X

/-- The worker run as `find --name foo` and as `find -n foo`. -/
theorem find_success_witness :
    find_main false ["find", "--name", "foo"]
        = ⟨"Looking for the entity \"foo\"...\n", "n -> foo\n", .code 0⟩ ∧
      find_main false ["find", "-n", "foo"]
        = ⟨"Looking for the entity \"foo\"...\n", "n -> foo\n", .code 0⟩ :=
  find_success false "find" "foo" (by decide)

theorem CH_n_ne : CH 'n' ≠ -1 ∧ CH '?' ≠ -1 ∧ CH '?' ≠ CH 'n' := by decide

theorem find_loop_done (posixly_correct : Bool) (d : GetoptData) (name : Option String)
    (err : String) (h : (getopt_long posixly_correct "n:" opts d).ch = -1) :
    find_loop posixly_correct d name err =
      match name with
      | none =>
        ⟨"", err ++ (getopt_long posixly_correct "n:" opts d).msg
          ++ "Usage: find --name pattern\n", .abort 44⟩
      | some pattern =>
        ⟨"Looking for the entity \"" ++ pattern ++ "\"...\n",
          err ++ (getopt_long posixly_correct "n:" opts d).msg, .code 0⟩ := by
  rw [find_loop.eq_def]
  simp only [h, dite_true]

theorem find_loop_name (posixly_correct : Bool) (d : GetoptData) (name : Option String)
    (err : String) (h : (getopt_long posixly_correct "n:" opts d).ch = CH 'n') :
    find_loop posixly_correct d name err =
      find_loop posixly_correct (getopt_long posixly_correct "n:" opts d).d
        (getopt_long posixly_correct "n:" opts d).d.optarg
        (err ++ (getopt_long posixly_correct "n:" opts d).msg ++ "n -> "
          ++ (getopt_long posixly_correct "n:" opts d).d.optarg.getD "(null)" ++ "\n") := by
  rw [find_loop.eq_def]
  simp only [h, CH_n_ne.1, dite_false, ite_true]

theorem find_loop_question (posixly_correct : Bool) (d : GetoptData) (name : Option String)
    (err : String) (h : (getopt_long posixly_correct "n:" opts d).ch = CH '?') :
    find_loop posixly_correct d name err =
      ⟨"", err ++ (getopt_long posixly_correct "n:" opts d).msg ++ "?\n", .abort 25⟩ := by
  rw [find_loop.eq_def]
  simp only [h, CH_n_ne.2.1, CH_n_ne.2.2, dite_false, ite_true, ite_false]

theorem find_loop_exit (posixly_correct : Bool) :
    ∀ (n : Nat) (d : GetoptData) (name : Option String) (err : String), d.todo = n →
      (find_loop posixly_correct d name err).exit = .code 0 ∨
      (find_loop posixly_correct d name err).exit = .abort 25 ∨
      (find_loop posixly_correct d name err).exit = .abort 44 := by
  intro n
  induction n using Nat.strong_induction_on with
  | _ n ih =>
    intro d name err hd
    rcases getopt_long_find_ch posixly_correct d with h | h | h
    · rw [find_loop_name _ _ _ _ h]
      have hlt := getopt_internal_todo posixly_correct "n:" (some opts) d
        (by rw [show getopt_internal posixly_correct "n:" (some opts) d
              = getopt_long posixly_correct "n:" opts d from rfl, h]; exact CH_n_ne.1)
      exact ih _ (hd ▸ hlt) _ _ _ rfl
    · rw [find_loop_question _ _ _ _ h]
      simp
    · rw [find_loop_done _ _ _ _ h]
      cases name <;> simp

/-- C10 (no internal-error branch is ever taken): with the option string `n:` and the table
`opts`, `getopt_long` returns only `'n'`, `'?'` or -1 from every scanning state, so for every
argument vector the worker ends by returning 0, by the `abort()` of the `'?'` branch
(line 25) or by the `abort()` of the missing-name check (line 44), and never by the
`abort()` of `case 0` (line 28) or of `default` (line 33). -/
theorem find_internal_errors_unreachable (posixly_correct : Bool) :
    (∀ d : GetoptData,
      (getopt_long posixly_correct "n:" opts d).ch = CH 'n' ∨
      (getopt_long posixly_correct "n:" opts d).ch = CH '?' ∨
      (getopt_long posixly_correct "n:" opts d).ch = -1) ∧
    (∀ argv : List String,
      (find_main posixly_correct argv).exit = .code 0 ∨
      (find_main posixly_correct argv).exit = .abort 25 ∨
      (find_main posixly_correct argv).exit = .abort 44) :=
  ⟨getopt_long_find_ch posixly_correct,
    fun argv => find_loop_exit posixly_correct _ (getopt_start argv) none "" rfl⟩

theorem short_option_other (d : GetoptData) (c : Char) (cs : List Char) (h : c ≠ 'n') :
    (short_option "n:" d c cs).ch = CH '?' := by
  unfold short_option
  by_cases hc2 : ':' = c
  · subst hc2
    simp [optchars, strchr]
  · simp [optchars, strchr, hc2, Ne.symm h]

theorem find_loop_congr (posixly_correct : Bool) (d d1 : GetoptData)
    (name : Option String) (err : String)
    (h : getopt_long posixly_correct "n:" opts d = getopt_long posixly_correct "n:" opts d1) :
    find_loop posixly_correct d name err = find_loop posixly_correct d1 name err := by
  conv_lhs => rw [find_loop.eq_def]
  conv_rhs => rw [find_loop.eq_def]
  simp only [h]

/-- With no cluster under way, `getopt_long` on an option element `-c...` other than `--`
hands it to `process_long_option` (for `--...`) or to `short_option`. -/
theorem getopt_long_option_element (posixly_correct : Bool) (argc : Nat) (argv0 : String)
    (scanned nonopts : List String) (e : String) (rest : List String)
    (optarg : Option String) (c : Char) (cs : List Char) (hargc : 0 < argc)
    (hd : e.data = '-' :: c :: cs) (hne : ¬ (c = '-' ∧ cs = [])) :
    getopt_long posixly_correct "n:" opts ⟨argc, argv0, scanned, nonopts, e :: rest, [], optarg⟩
      = if c = '-' then
          process_long_option "n:" opts ⟨argc, argv0, scanned ++ [e], nonopts, rest, [], none⟩ cs
        else short_option "n:" ⟨argc, argv0, scanned ++ [e], nonopts, rest, [], none⟩ c cs := by
  have hnon : NONOPTION_P e = false := by simp [NONOPTION_P, hd]
  have hlt : ¬ argc < 1 := by omega
  cases posixly_correct <;>
    simp [getopt_long, getopt_internal, hlt, ordering, skip_nonoptions, next_element,
      List.takeWhile_cons, List.dropWhile_cons, hnon, hd, hne]

/-- When `getopt` permutes, a non-option in front is skipped and kept for later. -/
theorem getopt_long_skip (argc : Nat) (argv0 : String) (scanned nonopts : List String)
    (e : String) (rest : List String) (optarg : Option String) (hargc : 0 < argc)
    (he : NONOPTION_P e = true) :
    getopt_long false "n:" opts ⟨argc, argv0, scanned, nonopts, e :: rest, [], optarg⟩
      = getopt_long false "n:" opts ⟨argc, argv0, scanned, nonopts ++ [e], rest, [], optarg⟩ := by
  have hlt : ¬ argc < 1 := by omega
  simp [getopt_long, getopt_internal, hlt, ordering, skip_nonoptions, List.takeWhile_cons,
    List.dropWhile_cons, he]

theorem process_long_option_name (d : GetoptData) (text : List Char)
    (h : (text.takeWhile (fun x => x != '=')).isPrefixOf "name".data = true) :
    process_long_option "n:" opts d text
      = long_option_found "n:" d (text.dropWhile (fun x => x != '='))
          ⟨"name", 1, none, CH 'n'⟩ := by
  unfold process_long_option
  cases hb : ("name".data == text.takeWhile (fun x => x != '=')) <;>
    simp [opts, abbreviated, List.find?, List.filter, h, hb]

theorem process_long_option_other (d : GetoptData) (text : List Char)
    (h : (text.takeWhile (fun x => x != '=')).isPrefixOf "name".data = false) :
    (process_long_option "n:" opts d text).ch = CH '?' := by
  have hne : ("name".data == text.takeWhile (fun x => x != '=')) = false := by
    cases hb : ("name".data == text.takeWhile (fun x => x != '=')) with
    | false => rfl
    | true =>
      have heq : "name".data = text.takeWhile (fun x => x != '=') := by simpa using hb
      rw [← heq] at h
      simp at h
  unfold process_long_option
  simp [opts, abbreviated, List.find?, List.filter, h, hne]

theorem takeWhile_dropWhile_no_eq (l : List Char) (h : l.contains '=' = false) :
    l.takeWhile (fun x => x != '=') = l ∧ l.dropWhile (fun x => x != '=') = [] := by
  have hall : ∀ x ∈ l, (x != '=') = true := by
    intro x hx
    have : x ≠ '=' := by
      intro hxe
      subst hxe
      have : l.contains '=' = true := List.contains_iff_exists_mem_beq.2 ⟨_, hx, by simp⟩
      rw [h] at this
      exact Bool.noConfusion this
    simpa using this
  exact ⟨List.takeWhile_eq_self_iff.2 hall, List.dropWhile_eq_nil_iff.2 hall⟩

theorem dropWhile_with_eq (l : List Char) (h : l.contains '=' = true) :
    ∃ x v, l.dropWhile (fun x => x != '=') = x :: v := by
  cases hd : l.dropWhile (fun x => x != '=') with
  | cons x v => exact ⟨x, v, rfl⟩
  | nil =>
    exfalso
    have hall := List.dropWhile_eq_nil_iff.1 hd
    obtain ⟨y, hy, hye⟩ := List.contains_iff_exists_mem_beq.1 h
    have := hall y hy
    have hy2 : y = '=' := (beq_iff_eq.1 hye).symm
    subst hy2
    simp at this

/-- An element with the name option and its argument attached: `getopt_long` returns `'n'`
and goes on to the next element. -/
theorem getopt_long_attached (posixly_correct : Bool) (argc : Nat) (argv0 : String)
    (scanned nonopts : List String) (e : String) (rest : List String)
    (optarg : Option String) (hargc : 0 < argc) (h : name_attached e = true) :
    ∃ X, getopt_long posixly_correct "n:" opts
        ⟨argc, argv0, scanned, nonopts, e :: rest, [], optarg⟩
      = ⟨CH 'n', ⟨argc, argv0, scanned ++ [e], nonopts, rest, [], some X⟩, ""⟩ := by
  unfold name_attached at h
  split at h
  · rename_i text hd
    simp only [Bool.and_eq_true] at h
    obtain ⟨x, v, hdw⟩ := dropWhile_with_eq text h.1
    have hne : ¬ ('-' = '-' ∧ text = []) := by
      rintro ⟨_, ht⟩
      rw [ht] at hdw
      simp at hdw
    rw [getopt_long_option_element posixly_correct argc argv0 scanned nonopts e rest optarg
      '-' text hargc hd hne, if_pos rfl, process_long_option_name _ _ h.2, hdw]
    exact ⟨⟨v⟩, by simp [long_option_found]⟩
  · rename_i x xs hd
    rw [getopt_long_option_element posixly_correct argc argv0 scanned nonopts e rest optarg
      'n' (x :: xs) hargc hd (by simp), if_neg (by decide)]
    exact ⟨⟨x :: xs⟩, by simp [short_option, optchars, strchr]⟩
  · exact Bool.noConfusion h

/-- An element with the name option alone: `getopt_long` takes the next element as its
argument, whatever it is, returns `'n'` and goes on after it. -/
theorem getopt_long_detached (posixly_correct : Bool) (argc : Nat) (argv0 : String)
    (scanned nonopts : List String) (e a : String) (rest : List String)
    (optarg : Option String) (hargc : 0 < argc) (h : name_detached e = true) :
    getopt_long posixly_correct "n:" opts
        ⟨argc, argv0, scanned, nonopts, e :: a :: rest, [], optarg⟩
      = ⟨CH 'n', ⟨argc, argv0, scanned ++ [e] ++ [a], nonopts, rest, [], some a⟩, ""⟩ := by
  unfold name_detached at h
  split at h
  · rename_i c cs hd
    simp only [Bool.and_eq_true, Bool.not_eq_true'] at h
    have hno := takeWhile_dropWhile_no_eq (c :: cs) h.1
    rw [getopt_long_option_element posixly_correct argc argv0 scanned nonopts e (a :: rest)
      optarg '-' (c :: cs) hargc hd (by simp), if_pos rfl,
      process_long_option_name _ _ (by rw [hno.1]; exact h.2), hno.2]
    simp [long_option_found]
  · rename_i hd
    rw [getopt_long_option_element posixly_correct argc argv0 scanned nonopts e (a :: rest)
      optarg 'n' [] hargc hd (by simp), if_neg (by decide)]
    simp [short_option, optchars, strchr]
  · exact Bool.noConfusion h

/-- An option error: `getopt_long` returns `'?'`. -/
theorem getopt_long_option_error (posixly_correct : Bool) (argc : Nat) (argv0 : String)
    (scanned nonopts : List String) (bad : String) (post : List String)
    (optarg : Option String) (hargc : 0 < argc) (h : option_error bad post = true) :
    (getopt_long posixly_correct "n:" opts
        ⟨argc, argv0, scanned, nonopts, bad :: post, [], optarg⟩).ch = CH '?' := by
  unfold option_error at h
  rcases Bool.or_eq_true _ _ ▸ h with h1 | h2
  · unfold other_option at h1
    split at h1
    · rename_i c cs hd
      rw [getopt_long_option_element posixly_correct argc argv0 scanned nonopts bad post
        optarg '-' (c :: cs) hargc hd (by simp), if_pos rfl]
      exact process_long_option_other _ _ (by simpa using h1)
    · rename_i c cs hnot hd
      simp only [Bool.and_eq_true, bne_iff_ne, ne_eq] at h1
      rw [getopt_long_option_element posixly_correct argc argv0 scanned nonopts bad post
        optarg c cs hargc hd (by intro hc; exact h1.2 hc.1), if_neg h1.2]
      exact short_option_other _ c cs h1.1
    · exact Bool.noConfusion h1
  · simp only [Bool.and_eq_true, List.isEmpty_iff] at h2
    obtain ⟨hdet, hpost⟩ := h2
    subst hpost
    unfold name_detached at hdet
    split at hdet
    · rename_i c cs hd
      simp only [Bool.and_eq_true, Bool.not_eq_true'] at hdet
      have hno := takeWhile_dropWhile_no_eq (c :: cs) hdet.1
      rw [getopt_long_option_element posixly_correct argc argv0 scanned nonopts bad []
        optarg '-' (c :: cs) hargc hd (by simp), if_pos rfl,
        process_long_option_name _ _ (by rw [hno.1]; exact hdet.2), hno.2]
      simp [long_option_found, optchars]
    · rename_i hd
      rw [getopt_long_option_element posixly_correct argc argv0 scanned nonopts bad []
        optarg 'n' [] hargc hd (by simp), if_neg (by decide)]
      simp [short_option, optchars, strchr]
    · exact Bool.noConfusion hdet

theorem find_loop_option_error (posixly_correct : Bool) (bad : String) (post : List String)
    (hbad : option_error bad post = true) :
    ∀ (n : Nat) (pre : List String), pre.length ≤ n → name_options posixly_correct pre = true →
      ∀ (argc : Nat) (argv0 : String) (scanned nonopts : List String)
        (optarg name : Option String) (err : String), 0 < argc →
        (find_loop posixly_correct
            ⟨argc, argv0, scanned, nonopts, pre ++ bad :: post, [], optarg⟩ name err).out = "" ∧
          (find_loop posixly_correct
            ⟨argc, argv0, scanned, nonopts, pre ++ bad :: post, [], optarg⟩ name err).exit
              = .abort 25 := by
  intro n
  induction n with
  | zero =>
    intro pre hlen _ argc argv0 scanned nonopts optarg name err hargc
    have hnil : pre = [] := List.length_eq_zero.1 (Nat.le_zero.1 hlen)
    subst hnil
    rw [List.nil_append, find_loop_question _ _ _ _
      (getopt_long_option_error posixly_correct argc argv0 scanned nonopts bad post optarg
        hargc hbad)]
    exact ⟨rfl, rfl⟩
  | succ n ih =>
    intro pre hlen hpre argc argv0 scanned nonopts optarg name err hargc
    cases pre with
    | nil =>
      rw [List.nil_append, find_loop_question _ _ _ _
        (getopt_long_option_error posixly_correct argc argv0 scanned nonopts bad post optarg
          hargc hbad)]
      exact ⟨rfl, rfl⟩
    | cons e rest =>
      have hlen1 : rest.length ≤ n := by simpa using hlen
      rw [name_options.eq_def] at hpre
      simp only at hpre
      split at hpre
      · -- the name option with its argument attached
        rename_i hatt
        obtain ⟨X, hg⟩ := getopt_long_attached posixly_correct argc argv0 scanned nonopts e
          (rest ++ bad :: post) optarg hargc hatt
        rw [List.cons_append, find_loop_name _ _ _ _ (by rw [hg]), hg]
        exact ih rest hlen1 hpre argc argv0 _ nonopts _ _ _ hargc
      · split at hpre
        · -- the name option, then its argument
          rename_i hdet
          cases rest with
          | nil => exact Bool.noConfusion hpre
          | cons a rest1 =>
            have hlen2 : rest1.length ≤ n := by
              simp only [List.length_cons] at hlen1
              omega
            have hg := getopt_long_detached posixly_correct argc argv0 scanned nonopts e a
              (rest1 ++ bad :: post) optarg hargc hdet
            rw [List.cons_append, List.cons_append, find_loop_name _ _ _ _ (by rw [hg]), hg]
            exact ih rest1 hlen2 hpre argc argv0 _ nonopts _ _ _ hargc
        · split at hpre
          · -- a non-option that `getopt` skips
            rename_i hskip
            simp only [Bool.and_eq_true, Bool.not_eq_true'] at hskip
            obtain ⟨hpc, hnon⟩ := hskip
            subst hpc
            rw [List.cons_append, find_loop_congr false _ _ name err
              (getopt_long_skip argc argv0 scanned nonopts e (rest ++ bad :: post) optarg
                hargc hnon)]
            exact ih rest hlen1 hpre argc argv0 scanned _ optarg name err hargc
          · exact Bool.noConfusion hpre

/-- C5 (option errors are fatal at once): for every worker argument list in which, after
any number of name options already accepted (each with its argument; non-options may stand
between them when `getopt` permutes), there comes an option other than `--name`/`-n` (such
as `-z` or `--bogus`), or `-n`/`--name` as the last element with no argument after it, the
process ends there by the `abort()` of line 25: nothing is written to standard output, the
`printf` is not reached and the exit is not code 0, whatever follows the bad option. -/
theorem find_option_error_aborts (posixly_correct : Bool) (find : String)
    (pre : List String) (bad : String) (post : List String)
    (hpre : name_options posixly_correct pre = true)
    (hbad : option_error bad post = true) :
    (find_main posixly_correct (find :: pre ++ bad :: post)).out = "" ∧
      (find_main posixly_correct (find :: pre ++ bad :: post)).exit = .abort 25 ∧
      (find_main posixly_correct (find :: pre ++ bad :: post)).exit ≠ .code 0 := by
  have h := find_loop_option_error posixly_correct bad post hbad pre.length pre
    (Nat.le_refl _) hpre (find :: pre ++ bad :: post).length find [] [] none none ""
    (by simp)
  have hm : find_main posixly_correct (find :: pre ++ bad :: post)
      = find_loop posixly_correct
          ⟨(find :: pre ++ bad :: post).length, find, [], [], pre ++ bad :: post, [], none⟩
          none "" := rfl
  rw [hm]
  refine ⟨h.1, h.2, ?_⟩
  rw [h.2]
  exact fun hc => Exit.noConfusion hc

/-- The worker run as `find --name x -z`: the name option is accepted, then `-z` is met. -/
theorem find_option_error_aborts_witness :
    (find_main false ["find", "--name", "x", "-z"]).out = "" ∧
      (find_main false ["find", "--name", "x", "-z"]).exit = .abort 25 ∧
      (find_main false ["find", "--name", "x", "-z"]).exit ≠ .code 0 :=
  find_option_error_aborts false "find" ["--name", "x"] "-z" [] (by decide) (by decide)

/-- An element is a name option (in one of its two forms), another option, the terminator
`--`, or a non-option. -/
theorem element_shapes (e : String) :
    name_attached e = true ∨ name_detached e = true ∨ other_option e = true ∨
      e.data = ['-', '-'] ∨ NONOPTION_P e = true := by
  rcases hd : e.data with _ | ⟨c0, _ | ⟨c1, _ | ⟨c2, cs⟩⟩⟩
  · exact Or.inr (Or.inr (Or.inr (Or.inr (by simp [NONOPTION_P, hd]))))
  · exact Or.inr (Or.inr (Or.inr (Or.inr (by simp [NONOPTION_P, hd]))))
  · by_cases h0 : c0 = '-'
    · subst h0
      by_cases h1 : c1 = '-'
      · subst h1
        exact Or.inr (Or.inr (Or.inr (Or.inl rfl)))
      · by_cases h2 : c1 = 'n'
        · subst h2
          exact Or.inr (Or.inl (by simp [name_detached, hd]))
        · exact Or.inr (Or.inr (Or.inl (by simp [other_option, hd, h1, h2])))
    · exact Or.inr (Or.inr (Or.inr (Or.inr (by simp [NONOPTION_P, hd, h0]))))
  · by_cases h0 : c0 = '-'
    · subst h0
      by_cases h1 : c1 = '-'
      · subst h1
        have e1 : name_attached e = ((c2 :: cs).contains '=' &&
            ((c2 :: cs).takeWhile (fun x => x != '=')).isPrefixOf "name".data) := by
          unfold name_attached
          simp only [hd]
        have e2 : name_detached e = (!(c2 :: cs).contains '=' &&
            (c2 :: cs).isPrefixOf "name".data) := by
          unfold name_detached
          simp only [hd]
        have e3 : other_option e
            = !((c2 :: cs).takeWhile (fun x => x != '=')).isPrefixOf "name".data := by
          unfold other_option
          simp only [hd]
        cases hp : ((c2 :: cs).takeWhile (fun x => x != '=')).isPrefixOf "name".data
        · exact Or.inr (Or.inr (Or.inl (by rw [e3, hp]; rfl)))
        · cases hc : (c2 :: cs).contains '='
          · have hno := takeWhile_dropWhile_no_eq (c2 :: cs) hc
            rw [hno.1] at hp
            exact Or.inr (Or.inl (by rw [e2, hc, hp]; rfl))
          · exact Or.inl (by rw [e1, hc, hp]; rfl)
      · by_cases h2 : c1 = 'n'
        · subst h2
          exact Or.inl (by simp [name_attached, hd])
        · exact Or.inr (Or.inr (Or.inl (by simp [other_option, hd, h1, h2])))
    · exact Or.inr (Or.inr (Or.inr (Or.inr (by simp [NONOPTION_P, hd, h0]))))

theorem next_element_stops (optstring : String) (longopts : Option (List option))
    (d : GetoptData) (e : String) (es : List String) (hr : d.rest = e :: es)
    (he : NONOPTION_P e = true) :
    next_element .REQUIRE_ORDER optstring longopts d = ⟨-1, d, ""⟩ := by
  unfold next_element
  rw [hr]
  simp only
  split
  · rename_i c cs hc
    simp [NONOPTION_P, hc] at he
  · simp

theorem find_loop_end (posixly_correct : Bool) (d : GetoptData) (name : Option String)
    (err : String) (h : (getopt_long posixly_correct "n:" opts d).ch = -1) :
    (find_loop posixly_correct d name err).exit ≠ .abort 25 := by
  rw [find_loop_done _ _ _ _ h]
  cases name <;> simp

theorem getopt_long_end (posixly_correct : Bool) (argc : Nat) (argv0 : String)
    (scanned nonopts rest : List String) (optarg : Option String)
    (h : rest = [] ∨ (∃ e tl, rest = e :: tl ∧ e.data = ['-', '-']) ∨
      (∃ e tl, rest = e :: tl ∧ posixly_correct = true ∧ NONOPTION_P e = true)) :
    (getopt_long posixly_correct "n:" opts
      ⟨argc, argv0, scanned, nonopts, rest, [], optarg⟩).ch = -1 := by
  unfold getopt_long getopt_internal
  simp only
  split
  · rfl
  · rcases h with h | ⟨e, tl, h, hd⟩ | ⟨e, tl, h, hpc, hnon⟩
    · subst h
      cases posixly_correct <;> simp [ordering, skip_nonoptions, next_element]
    · subst h
      have hnon : NONOPTION_P e = false := by simp [NONOPTION_P, hd]
      cases posixly_correct <;>
        simp [ordering, skip_nonoptions, next_element, List.takeWhile_cons,
          List.dropWhile_cons, hnon, hd]
    · subst h
      subst hpc
      have hs := next_element_stops "n:" (some opts)
        ⟨argc, argv0, scanned, nonopts, e :: tl, [], none⟩ e tl rfl hnon
      simp [ordering, skip_nonoptions, hs]

/-- The converse: whenever the worker ends by the `abort()` of the `'?'` branch, its
arguments are name options followed by an option error. -/
theorem find_loop_abort_shape (posixly_correct : Bool) :
    ∀ (n : Nat) (args : List String), args.length ≤ n →
      ∀ (argc : Nat) (argv0 : String) (scanned nonopts : List String)
        (optarg name : Option String) (err : String), 0 < argc →
        (find_loop posixly_correct
          ⟨argc, argv0, scanned, nonopts, args, [], optarg⟩ name err).exit = .abort 25 →
        ∃ pre bad post, args = pre ++ bad :: post ∧
          name_options posixly_correct pre = true ∧ option_error bad post = true := by
  intro n
  induction n with
  | zero =>
    intro args hlen argc argv0 scanned nonopts optarg name err _ hab
    have hnil : args = [] := List.length_eq_zero.1 (Nat.le_zero.1 hlen)
    subst hnil
    exact absurd hab (find_loop_end _ _ _ _
      (getopt_long_end posixly_correct argc argv0 scanned nonopts [] optarg (Or.inl rfl)))
  | succ n ih =>
    intro args hlen argc argv0 scanned nonopts optarg name err hargc hab
    cases args with
    | nil =>
      exact absurd hab (find_loop_end _ _ _ _
        (getopt_long_end posixly_correct argc argv0 scanned nonopts [] optarg (Or.inl rfl)))
    | cons e rest =>
      have hlen1 : rest.length ≤ n := by simpa using hlen
      by_cases hatt : name_attached e = true
      · obtain ⟨X, hg⟩ := getopt_long_attached posixly_correct argc argv0 scanned nonopts e
          rest optarg hargc hatt
        rw [find_loop_name _ _ _ _ (by rw [hg]), hg] at hab
        obtain ⟨pre, bad, post, heq, hpre, hbad⟩ :=
          ih rest hlen1 argc argv0 _ nonopts _ _ _ hargc hab
        refine ⟨e :: pre, bad, post, by rw [heq]; rfl, ?_, hbad⟩
        rw [name_options.eq_def]
        simp only [hatt, if_true]
        exact hpre
      · by_cases hdet : name_detached e = true
        · cases rest with
          | nil =>
            exact ⟨[], e, [], rfl, rfl, by simp [option_error, hdet]⟩
          | cons a rest1 =>
            have hlen2 : rest1.length ≤ n := by
              simp only [List.length_cons] at hlen1
              omega
            have hg := getopt_long_detached posixly_correct argc argv0 scanned nonopts e a
              rest1 optarg hargc hdet
            rw [find_loop_name _ _ _ _ (by rw [hg]), hg] at hab
            obtain ⟨pre, bad, post, heq, hpre, hbad⟩ :=
              ih rest1 hlen2 argc argv0 _ nonopts _ _ _ hargc hab
            refine ⟨e :: a :: pre, bad, post, by rw [heq]; rfl, ?_, hbad⟩
            rw [name_options.eq_def]
            simp only [hatt, hdet, if_true]
            exact hpre
        · by_cases hoth : other_option e = true
          · exact ⟨[], e, rest, rfl, rfl, by simp [option_error, hoth]⟩
          · rcases element_shapes e with h | h | h | h | h
            · exact absurd h hatt
            · exact absurd h hdet
            · exact absurd h hoth
            · exact absurd hab (find_loop_end _ _ _ _
                (getopt_long_end posixly_correct argc argv0 scanned nonopts (e :: rest) optarg
                  (Or.inr (Or.inl ⟨e, rest, rfl, h⟩))))
            · cases posixly_correct with
              | true =>
                exact absurd hab (find_loop_end _ _ _ _
                  (getopt_long_end true argc argv0 scanned nonopts (e :: rest) optarg
                    (Or.inr (Or.inr ⟨e, rest, rfl, rfl, h⟩))))
              | false =>
                rw [find_loop_congr false _ _ name err
                  (getopt_long_skip argc argv0 scanned nonopts e rest optarg hargc h)] at hab
                obtain ⟨pre, bad, post, heq, hpre, hbad⟩ :=
                  ih rest hlen1 argc argv0 scanned _ optarg name err hargc hab
                refine ⟨e :: pre, bad, post, by rw [heq]; rfl, ?_, hbad⟩
                rw [name_options.eq_def]
                simp only [hatt, hdet, h]
                simpa using hpre

/-- The argument lists of C5 are all there are: a worker that ends by the `abort()` of
line 25 was given name options followed by an option error. -/
theorem find_option_error_only (posixly_correct : Bool) (find : String)
    (args : List String)
    (h : (find_main posixly_correct (find :: args)).exit = .abort 25) :
    ∃ pre bad post, args = pre ++ bad :: post ∧
      name_options posixly_correct pre = true ∧ option_error bad post = true :=
  find_loop_abort_shape posixly_correct args.length args (Nat.le_refl _)
    (find :: args).length find [] [] none none "" (by simp) h

/-- Option errors of each kind, after name options of each form: an unknown long option
after a non-option and three forms of the name option; `--name` and `-n` left without an
argument; also under `POSIXLY_CORRECT`. -/
theorem option_error_examples :
    (name_options false ["foo", "--name", "x", "-ny", "--na=z"] = true ∧
        option_error "--bogus" ["bar", "-n", "w"] = true) ∧
      (name_options true ["-n", "-z", "--n", "--"] = true ∧ option_error "--name" [] = true) ∧
      (name_options true [] = true ∧ option_error "-n" [] = true) ∧
      option_error "-zn" ["x"] = true ∧ option_error "--names=x" [] = true ∧
      option_error "--name" ["x"] = false ∧ option_error "--" [] = false ∧
      option_error "-" [] = false ∧ option_error "-nx" [] = false ∧
      option_error "--=x" [] = false := by
  decide

theorem data_eq_dashes (e : String) : e.data = ['-', '-'] ↔ e = "--" := by
  constructor
  · intro h; exact String.ext h
  · intro h; rw [h]

theorem no_option_dropWhile (l : List String)
    (h : ∀ a ∈ l.takeWhile (fun a => a != "--"), NONOPTION_P a = true) :
    l.dropWhile NONOPTION_P = [] ∨ ∃ es, l.dropWhile NONOPTION_P = "--" :: es := by
  induction l with
  | nil => simp
  | cons a l ih =>
    by_cases ha : a = "--"
    · subst ha
      right
      exact ⟨l, by simp [List.dropWhile_cons, NONOPTION_P]⟩
    · have ha2 : NONOPTION_P a = true := by
        apply h
        simp [List.takeWhile_cons, ha]
      have := ih (fun b hb => h b (by simp [List.takeWhile_cons, ha, hb]))
      simpa [List.dropWhile_cons, ha2] using this

theorem getopt_long_no_option (posixly_correct : Bool) (argv : List String)
    (h : ∀ a ∈ argv.tail.takeWhile (fun a => a != "--"), NONOPTION_P a = true) :
    (getopt_long posixly_correct "n:" opts (getopt_start argv)).ch = -1 ∧
      (getopt_long posixly_correct "n:" opts (getopt_start argv)).msg = "" := by
  unfold getopt_long getopt_internal
  simp only
  split
  · simp
  · simp only [getopt_start]
    cases posixly_correct
    · -- PERMUTE
      simp only [ordering, skip_nonoptions]
      rcases no_option_dropWhile argv.tail h with h0 | ⟨es, h0⟩
      · simp [next_element, h0]
      · simp [next_element, h0]
    · -- REQUIRE_ORDER
      simp only [ordering, skip_nonoptions]
      unfold next_element
      simp only
      split
      · simp
      · rename_i e es he
        split
        · rename_i c cs hd
          split
          · simp
          · rename_i hne
            exfalso
            have hmem : e ∈ argv.tail.takeWhile (fun a => a != "--") := by
              have : e ≠ "--" := by
                intro h2; subst h2
                simp at hd
                exact hne ⟨hd.1.symm, hd.2⟩
              have he2 : argv.tail = e :: es := he
              rw [he2]
              simp [List.takeWhile_cons, this]
            have := h e hmem
            simp [NONOPTION_P, hd] at this
        · simp

theorem find_main_no_option (posixly_correct : Bool) (argv : List String)
    (h : ∀ a ∈ argv.tail.takeWhile (fun a => a != "--"), NONOPTION_P a = true) :
    find_main posixly_correct argv = ⟨"", "Usage: find --name pattern\n", .abort 44⟩ := by
  have h1 := getopt_long_no_option posixly_correct argv h
  unfold find_main
  rw [find_loop_done _ _ _ _ h1.1, h1.2]
  simp

/-- C4 as amended (no option at all): for every argument vector in which every argument
before a `--` terminator is a non-option (it does not start with `-`, or is `-` alone), the
worker ends by the `abort()` of line 44, writes exactly the line
`Usage: find --name pattern` to the error stream and writes nothing to standard output. -/
theorem find_usage_when_no_option (posixly_correct : Bool) (argv : List String)
    (h : ∀ a ∈ argv.tail.takeWhile (fun a => a != "--"), NONOPTION_P a = true) :
    find_main posixly_correct argv = ⟨"", "Usage: find --name pattern\n", .abort 44⟩ :=
  find_main_no_option posixly_correct argv h

/-- The worker run as `find foo - -- -z`: no option before the terminator. -/
theorem find_usage_when_no_option_witness :
    find_main false ["find", "foo", "-", "--", "-z"]
      = ⟨"", "Usage: find --name pattern\n", .abort 44⟩ :=
  find_usage_when_no_option false ["find", "foo", "-", "--", "-z"] (by decide)

/-- C4 as stated fails: the argument vector `find -z` has neither `--name` nor `-n`, yet the
worker stops in the `'?'` branch (line 25) and the usage line is not written. -/
theorem find_usage_counterexample :
    "--name" ∉ ["-z"] ∧ "-n" ∉ ["-z"] ∧
      find_main false ["find", "-z"]
        = ⟨"", "find: invalid option -- 'z'\n?\n", .abort 25⟩ ∧
      ¬ ("Usage: find --name pattern".data <:+:
          (find_main false ["find", "-z"]).err.data) := by
  have h : find_main false ["find", "-z"]
      = ⟨"", "find: invalid option -- 'z'\n?\n", .abort 25⟩ := by
    simp [find_main, find_loop, getopt_start, getopt_long, getopt_internal, next_element,
      skip_nonoptions, ordering, process_long_option, long_option_found, short_option, opts,
      optchars, strchr, CH, abbreviated, NONOPTION_P]
    decide
  rw [h]
  decide

/-! ## The dispatcher: claims -/

theorem runner_main_resolved (env : Env) (posixly_correct : Bool) (a0 : String)
    (args : List String) (P : String) (hP : env.realpath a0 = some P) :
    runner_main env posixly_correct (a0 :: args) =
      match env.execvp (runner_find_path env P)
          (runner_forwarded posixly_correct (a0 :: args)) with
      | some o =>
        ⟨[⟨runner_find_path env P, runner_forwarded posixly_correct (a0 :: args)⟩],
          decide (env.PATH_MAX < sprintf_size (runner_find_path env P)),
          ⟨o.out, (runner_loop posixly_correct (getopt_start (a0 :: args)) "").2 ++ o.err,
            o.exit⟩⟩
      | none =>
        ⟨[⟨runner_find_path env P, runner_forwarded posixly_correct (a0 :: args)⟩],
          decide (env.PATH_MAX < sprintf_size (runner_find_path env P)),
          ⟨"", (runner_loop posixly_correct (getopt_start (a0 :: args)) "").2
            ++ "execvp(" ++ runner_find_path env P ++ ") failed!\n", .abort 37⟩⟩ := by
  unfold runner_main runner_forwarded
  simp only [List.head?_cons, Option.some_bind, hP]

/-- Where released storage keeps its contents, the sibling path is `dirname(P)/find`. -/
theorem runner_find_path_intact (env : Env) (P : String)
    (h : env.released (dirname P) = dirname P) :
    runner_find_path env P = dirname P ++ "/find" := by
  unfold runner_find_path
  simp only [h, ite_self]

theorem runner_find_path_installed :
    runner_find_path env_installed "/usr/bin/runner" = "/usr/bin/find" := by
  rw [runner_find_path_intact env_installed _ rfl]
  decide

/-- C8 (path-resolution failure): whenever `realpath(argv[0])` fails, the dispatcher writes
`Failed to find path to binary.` and nothing else to the error stream (none of the messages
`getopt` has for the options, which are all invalid for it), makes no `execvp` call and ends
by the `abort()` of line 12, whatever the other arguments are. -/
theorem runner_resolution_failure (env : Env) (posixly_correct : Bool) (a0 : String)
    (args : List String) (hP : env.realpath a0 = none) :
    runner_main env posixly_correct (a0 :: args)
      = ⟨[], false, ⟨"", "Failed to find path to binary.\n", .abort 12⟩⟩ := by
  unfold runner_main
  simp only [List.head?_cons, Option.some_bind, hP]

/-- The dispatcher run as `runner -z --name foo` where its own path does not resolve. -/
theorem runner_resolution_failure_witness :
    runner_main env_unresolved false ["runner", "-z", "--name", "foo"]
      = ⟨[], false, ⟨"", "Failed to find path to binary.\n", .abort 12⟩⟩ :=
  runner_resolution_failure env_unresolved false "runner" ["-z", "--name", "foo"] rfl

/-- C6 fails on the code (the path is read after `free`): main.c gives `binary_path` to
`free` (line 15) before `sprintf` reads `dir_path` (line 17), and the GNU `dirname` returns
a pointer into that very block.  On a system whose allocator writes over the start of a
released block, the dispatcher resolved to `/usr/bin/runner` does not call `execvp` for
`dirname(P)/find`, that is `/usr/bin/find`, but for what is left in the block followed by
`/find`, and so does not find the worker installed next to it. -/
theorem runner_exec_path_released :
    env_overwriting.realpath "/usr/bin/runner" = some "/usr/bin/runner" ∧
      (runner_main env_overwriting false ["/usr/bin/runner"]).calls.map ExecCall.file
        = ["=6|X\x05/find"] ∧
      (runner_main env_overwriting false ["/usr/bin/runner"]).calls.map ExecCall.file
        ≠ [dirname "/usr/bin/runner" ++ "/find"] ∧
      (runner_main env_overwriting false ["/usr/bin/runner"]).result
        = ⟨"", "execvp(=6|X\x05/find) failed!\n", .abort 37⟩ := by
  have hp : runner_find_path env_overwriting "/usr/bin/runner" = "=6|X\x05/find" := by
    decide
  have hf : runner_forwarded false ["/usr/bin/runner"] = [] := by
    simp [runner_forwarded, runner_loop, getopt, getopt_start, getopt_internal, next_element,
      skip_nonoptions, ordering, GetoptData.argv, GetoptData.optind]
  have hl : (runner_loop false (getopt_start ["/usr/bin/runner"]) "").2 = "" := by
    simp [runner_loop, getopt, getopt_start, getopt_internal, next_element,
      skip_nonoptions, ordering]
  have hx : env_overwriting.execvp "=6|X\x05/find" [] = none := by
    show (if "=6|X\x05/find" = "/usr/bin/find" then some (find_main false []) else none)
      = none
    exact if_neg (by decide)
  rw [runner_main_resolved env_overwriting false "/usr/bin/runner" [] "/usr/bin/runner" rfl,
    hp, hf, hl, hx]
  exact ⟨rfl, rfl, by decide, by decide⟩

/-- C7 (launch failure): whenever `realpath(argv[0])` gives `P` and the `execvp` call for
the sibling fails, the dispatcher has made exactly one `execvp` call, for the sibling path
it formatted, the error stream ends with the line `execvp(<that same path>) failed!`,
standard output is empty and the process ends by the `abort()` of line 37. -/
theorem runner_launch_failure (env : Env) (posixly_correct : Bool) (a0 : String)
    (args : List String) (P : String) (hP : env.realpath a0 = some P)
    (hfail : env.execvp (runner_find_path env P)
      (runner_forwarded posixly_correct (a0 :: args)) = none) :
    (runner_main env posixly_correct (a0 :: args)).calls.map ExecCall.file
        = [runner_find_path env P] ∧
      (∃ before, (runner_main env posixly_correct (a0 :: args)).result.err
        = before ++ "execvp(" ++ runner_find_path env P ++ ") failed!\n") ∧
      (runner_main env posixly_correct (a0 :: args)).result.out = "" ∧
      (runner_main env posixly_correct (a0 :: args)).result.exit = .abort 37 := by
  rw [runner_main_resolved env posixly_correct a0 args P hP, hfail]
  exact ⟨rfl, ⟨_, rfl⟩, rfl, rfl⟩

/-- The dispatcher installed as `/usr/bin/runner` without a sibling, run as `runner foo`. -/
theorem runner_launch_failure_witness :
    (runner_main env_alone false ["runner", "foo"]).calls.map ExecCall.file
        = [runner_find_path env_alone "/usr/bin/runner"] ∧
      (∃ before, (runner_main env_alone false ["runner", "foo"]).result.err
        = before ++ "execvp(" ++ runner_find_path env_alone "/usr/bin/runner"
          ++ ") failed!\n") ∧
      (runner_main env_alone false ["runner", "foo"]).result.out = "" ∧
      (runner_main env_alone false ["runner", "foo"]).result.exit = .abort 37 :=
  runner_launch_failure env_alone false "runner" ["foo"] "/usr/bin/runner" rfl rfl

/-- The vector the dispatcher forwards, on small examples: options (all unknown to it) are
dropped, non-options keep their order, everything after `--` is kept; under
`POSIXLY_CORRECT` everything from the first non-option on is kept. -/
theorem runner_forwarded_examples :
    runner_forwarded false ["runner", "a", "-x", "b", "--", "-c"] = ["a", "b", "-c"] ∧
      runner_forwarded true ["runner", "a", "-x", "b", "--", "-c"]
        = ["a", "-x", "b", "--", "-c"] ∧
      runner_forwarded false ["runner", "find", "--name", "foo"] = ["find", "foo"] ∧
      runner_forwarded true ["runner", "find", "--name", "foo"] = ["find", "--name", "foo"] ∧
      runner_forwarded false ["runner"] = [] := by
  simp [runner_forwarded, runner_loop, getopt, getopt_start, getopt_internal, next_element,
    skip_nonoptions, ordering, short_option, optchars, strchr, CH, NONOPTION_P,
    GetoptData.argv, GetoptData.optind]

/-- The library `dirname` on small examples. -/
theorem dirname_examples :
    dirname "/usr/bin/runner" = "/usr/bin" ∧ dirname "/runner" = "/" ∧
      dirname "//runner" = "//" ∧ dirname "/usr//lib//" = "/usr" ∧ dirname "usr/" = "." ∧
      dirname "runner" = "." ∧ dirname "/" = "/" ∧ dirname "" = "." := by
  decide

theorem runner_forwarded_name_foo (posixly_correct : Bool) (a0 : String) :
    runner_forwarded posixly_correct [a0, "--name", "foo"] = ["foo"] := by
  cases posixly_correct <;>
    simp [runner_forwarded, runner_loop, getopt, getopt_start, getopt_internal, next_element,
      skip_nonoptions, ordering, short_option, optchars, strchr, CH, NONOPTION_P,
      GetoptData.argv, GetoptData.optind]

theorem find_main_foo (posixly_correct : Bool) :
    find_main posixly_correct ["foo"] = ⟨"", "Usage: find --name pattern\n", .abort 44⟩ :=
  find_main_no_option posixly_correct ["foo"] (by decide)

/-- C2 as amended (what the dispatcher does with `--name foo`): when the sibling that the
dispatcher starts is the worker, the dispatcher invoked with the arguments `--name foo`
makes one `execvp` call; its standard output is the standard output of the worker run on the
argument vector of that call; that vector does not contain `--name`, which the dispatcher
has consumed as options of its own; so standard output is empty, and is not the line that
the worker invoked directly with `--name foo` writes. -/
theorem runner_name_foo (env : Env) (posixly_correct : Bool) (a0 find P : String)
    (hP : env.realpath a0 = some P)
    (hfind : ∀ argv, env.execvp (runner_find_path env P) argv
      = some (find_main posixly_correct argv)) :
    ∃ v : List String,
      (runner_main env posixly_correct [a0, "--name", "foo"]).calls
        = [⟨runner_find_path env P, v⟩] ∧
      "--name" ∉ v ∧
      (runner_main env posixly_correct [a0, "--name", "foo"]).result.out
        = (find_main posixly_correct v).out ∧
      (runner_main env posixly_correct [a0, "--name", "foo"]).result.out = "" ∧
      (runner_main env posixly_correct [a0, "--name", "foo"]).result.out
        ≠ (find_main posixly_correct [find, "--name", "foo"]).out := by
  refine ⟨["foo"], ?_⟩
  rw [runner_main_resolved env posixly_correct a0 _ P hP, hfind,
    runner_forwarded_name_foo, find_main_foo, (find_main_name posixly_correct find "foo").1]
  refine ⟨rfl, by decide, rfl, rfl, ?_⟩
  show "" ≠ "Looking for the entity \"" ++ "foo" ++ "\"...\n"
  decide

/-- The dispatcher installed as `/usr/bin/runner` next to the worker, run as
`runner --name foo`. -/
theorem runner_name_foo_witness :
    ∃ v : List String,
      (runner_main env_installed false ["runner", "--name", "foo"]).calls
        = [⟨runner_find_path env_installed "/usr/bin/runner", v⟩] ∧
      "--name" ∉ v ∧
      (runner_main env_installed false ["runner", "--name", "foo"]).result.out
        = (find_main false v).out ∧
      (runner_main env_installed false ["runner", "--name", "foo"]).result.out = "" ∧
      (runner_main env_installed false ["runner", "--name", "foo"]).result.out
        ≠ (find_main false ["find", "--name", "foo"]).out :=
  runner_name_foo env_installed false "runner" "find" "/usr/bin/runner" rfl
    (fun argv => by
      rw [runner_find_path_installed]
      show (if "/usr/bin/find" = "/usr/bin/find" then some (find_main false argv) else none)
        = some (find_main false argv)
      exact if_pos rfl)

/-- C2 as stated fails: with the dispatcher installed as `/usr/bin/runner` next to the
worker `/usr/bin/find`, the dispatcher invoked with `--name foo` starts the worker and yet
writes nothing to standard output, while the worker invoked directly with `--name foo`
writes `Looking for the entity "foo"...`. -/
theorem runner_transparency_counterexample :
    (runner_main env_installed false ["runner", "--name", "foo"]).calls.map ExecCall.file
        = ["/usr/bin/find"] ∧
      (runner_main env_installed false ["runner", "--name", "foo"]).result.out = "" ∧
      (find_main false ["find", "--name", "foo"]).out
        = "Looking for the entity \"foo\"...\n" ∧
      (runner_main env_installed false ["runner", "--name", "foo"]).result.out
        ≠ (find_main false ["find", "--name", "foo"]).out := by
  have h0 : runner_main env_installed false ["runner", "--name", "foo"]
      = ⟨[⟨"/usr/bin/find", ["foo"]⟩], false,
          ⟨"", (runner_loop false (getopt_start ["runner", "--name", "foo"]) "").2
            ++ "Usage: find --name pattern\n", .abort 44⟩⟩ := by
    rw [runner_main_resolved env_installed false "runner" _ "/usr/bin/runner" rfl,
      runner_forwarded_name_foo, runner_find_path_installed]
    simp only [env_installed]
    rw [if_pos trivial, find_main_foo]
    simp only [sprintf_size]
    congr 1
  have h2 : (find_main false ["find", "--name", "foo"]).out
      = "Looking for the entity \"foo\"...\n" := by
    rw [(find_main_name false "find" "foo").1]
    decide
  rw [h0, h2]
  refine ⟨rfl, rfl, rfl, by decide⟩

theorem getopt_positional (posixly_correct : Bool) (a0 : String) (args : List String)
    (h : ∀ a ∈ args, NONOPTION_P a = true) :
    (getopt posixly_correct "" (getopt_start (a0 :: args))).ch = -1 ∧
      (getopt posixly_correct "" (getopt_start (a0 :: args))).d.argv.drop
        (getopt posixly_correct "" (getopt_start (a0 :: args))).d.optind = args := by
  cases posixly_correct
  · -- PERMUTE: every argument is skipped, then optind backs over them
    have h1 : args.takeWhile NONOPTION_P = args := List.takeWhile_eq_self_iff.2 h
    have h2 : args.dropWhile NONOPTION_P = [] := List.dropWhile_eq_nil_iff.2 h
    simp [getopt, getopt_internal, getopt_start, ordering, skip_nonoptions, next_element,
      h1, h2, GetoptData.argv, GetoptData.optind]
  · -- REQUIRE_ORDER: the scan stops at the first argument
    cases args with
    | nil =>
      simp [getopt, getopt_internal, getopt_start, ordering, skip_nonoptions, next_element,
        GetoptData.argv, GetoptData.optind]
    | cons e es =>
      have he : NONOPTION_P e = true := h e (List.mem_cons_self _ _)
      have hn := fun n : Nat => next_element_stops "" none
        ⟨n, a0, [], [], e :: es, [], none⟩ e es rfl he
      simp [getopt, getopt_internal, getopt_start, ordering, skip_nonoptions, hn,
        GetoptData.argv, GetoptData.optind]

/-- The dispatcher run with positional arguments only hands exactly these arguments to
`execvp`: nothing is put in front of them, so the first one takes the place of the
invocation name. -/
theorem runner_forwarded_positional (posixly_correct : Bool) (a0 : String)
    (args : List String) (h : ∀ a ∈ args, NONOPTION_P a = true) :
    runner_forwarded posixly_correct (a0 :: args) = args := by
  have hg := getopt_positional posixly_correct a0 args h
  unfold runner_forwarded
  rw [runner_loop.eq_def]
  simp only [hg.1, dite_true]
  exact hg.2

/-- C3 fails on the code (the invocation-name slot): the dispatcher invoked as
`runner -- --name foo` passes `argv + optind`, that is `["--name", "foo"]`, as the whole
argument vector of `execvp`; the leftover argument `--name` sits at index 0, where the
sibling expects its invocation name, so the worker sees no name option and aborts with the
usage line, although run with its name in front of the same arguments it succeeds. -/
theorem runner_forwards_without_name :
    (runner_main env_installed false ["runner", "--", "--name", "foo"]).calls
        = [⟨"/usr/bin/find", ["--name", "foo"]⟩] ∧
      (runner_main env_installed false ["runner", "--", "--name", "foo"]).result
        = ⟨"", "Usage: find --name pattern\n", .abort 44⟩ ∧
      find_main false ["/usr/bin/find", "--name", "foo"]
        = ⟨"Looking for the entity \"foo\"...\n", "n -> foo\n", .code 0⟩ := by
  have hf : runner_forwarded false ["runner", "--", "--name", "foo"] = ["--name", "foo"] := by
    simp [runner_forwarded, runner_loop, getopt, getopt_start, getopt_internal, next_element,
      skip_nonoptions, ordering, short_option, optchars, strchr, CH, NONOPTION_P,
      GetoptData.argv, GetoptData.optind]
  have hl : (runner_loop false (getopt_start ["runner", "--", "--name", "foo"]) "").2 = "" := by
    simp [runner_loop, getopt, getopt_start, getopt_internal, next_element,
      skip_nonoptions, ordering, short_option, optchars, strchr, CH, NONOPTION_P]
  have hw : find_main false ["--name", "foo"]
      = ⟨"", "Usage: find --name pattern\n", .abort 44⟩ :=
    find_main_no_option false ["--name", "foo"] (by decide)
  rw [runner_main_resolved env_installed false "runner" _ "/usr/bin/runner" rfl, hf, hl,
    runner_find_path_installed]
  simp only [env_installed]
  rw [if_pos trivial, hw]
  exact ⟨rfl, rfl, (find_main_name false "/usr/bin/find" "foo").1⟩

/-! ### The buffer `find_path` -/

theorem dropWhile_append_of_all {α : Type} (p : α → Bool) (l r : List α)
    (h : ∀ x ∈ l, p x = true) : (l ++ r).dropWhile p = r.dropWhile p := by
  induction l with
  | nil => rfl
  | cons a l ih =>
    have ha : p a = true := h a (List.mem_cons_self _ _)
    simp only [List.cons_append, List.dropWhile_cons, ha, if_true]
    exact ih (fun x hx => h x (List.mem_cons_of_mem _ hx))

/-- The `dirname` of `dir/base`, for a directory `dir` that ends in a character other than
`/` and a component `base` that is not empty and has no `/`, is `dir`. -/
theorem dirname_join (dir : List Char) (c : Char) (base : List Char) (b : Char)
    (hc : c ≠ '/') (hb : b ≠ '/') (hbase : ∀ x ∈ base, x ≠ '/') :
    dirname ⟨(dir ++ [c]) ++ '/' :: (base ++ [b])⟩ = ⟨dir ++ [c]⟩ := by
  have h1 : strip_slashes ((dir ++ [c]) ++ '/' :: (base ++ [b]))
      = (dir ++ [c]) ++ '/' :: (base ++ [b]) := by
    simp [strip_slashes, List.dropWhile_cons, hb]
  have h2 : ((dir ++ [c]) ++ '/' :: (base ++ [b])).reverse
      = (b :: base.reverse) ++ ('/' :: c :: dir.reverse) := by simp
  have h3 : ((b :: base.reverse) ++ ('/' :: c :: dir.reverse)).dropWhile (fun x => x != '/')
      = '/' :: c :: dir.reverse := by
    rw [dropWhile_append_of_all]
    · simp [List.dropWhile_cons]
    · intro x hx
      rcases List.mem_cons.1 hx with rfl | hx
      · simpa using hb
      · simpa using hbase x (List.mem_reverse.1 hx)
  have h4 : strip_slashes (dir ++ [c] ++ ['/']) = dir ++ [c] := by
    simp [strip_slashes, List.dropWhile_cons, hc]
  unfold dirname
  simp only [h1, h2, h3]
  have h5 : ('/' :: c :: dir.reverse).reverse = dir ++ [c] ++ ['/'] := by simp
  rw [h5, h4]
  simp

theorem long_dir_length : long_dir.length = 4092 := by
  simp only [long_dir, List.length_append, List.length_flatten, List.map_replicate,
    List.sum_replicate, List.length_cons, List.length_replicate, smul_eq_mul]

theorem dirname_long_path : dirname long_path = ⟨long_dir⟩ := by
  have h := dirname_join
    ((List.replicate 15 ('/' :: List.replicate 255 'a')).flatten
      ++ '/' :: List.replicate 250 'b')
    'b' [] 'r' (by decide) (by decide) (by simp)
  have e1 : (List.replicate 15 ('/' :: List.replicate 255 'a')).flatten
      ++ '/' :: List.replicate 250 'b' ++ ['b'] = long_dir := by
    rw [long_dir, List.replicate_succ' 250]
    simp only [List.append_assoc, List.cons_append]
  rw [e1] at h
  exact h

/-- C9 fails on the code (the buffer bound): on Linux, where `PATH_MAX` is 4096, a
dispatcher whose resolved path is `long_path` (4094 characters, less than `PATH_MAX`) has a
`dirname` of 4092 characters, so the bound `length(dirname(P)) + 6 <= PATH_MAX` does not
hold, and where the released block still holds that directory `sprintf` stores 4098 bytes
in the 4096-byte array `find_path`: the run overruns the buffer. -/
theorem find_path_overrun :
    long_path.length < env_long.PATH_MAX ∧
      env_long.realpath "runner" = some long_path ∧
      ¬ ((dirname long_path).length + 6 ≤ env_long.PATH_MAX) ∧
      sprintf_size (runner_find_path env_long long_path) = 4098 ∧
      (runner_main env_long false ["runner"]).overrun = true := by
  have hlen : (dirname long_path).length = 4092 := by
    rw [dirname_long_path]; exact long_dir_length
  have hsz : sprintf_size (runner_find_path env_long long_path) = 4098 := by
    have h5 : ("/find" : String).length = 5 := by decide
    have hk : env_long.released (dirname long_path) = dirname long_path := by
      simp only [env_long]
    rw [runner_find_path_intact env_long long_path hk]
    simp only [sprintf_size, String.length_append, hlen, h5]
  refine ⟨?_, rfl, ?_, hsz, ?_⟩
  · simp only [long_path, String.length, List.length_append, long_dir_length, env_long,
      List.length_cons, List.length_nil]
    decide
  · rw [hlen]
    decide
  · rw [runner_main_resolved env_long false "runner" [] long_path rfl]
    have hov : decide (env_long.PATH_MAX < sprintf_size (runner_find_path env_long long_path))
        = true := decide_eq_true (by rw [hsz]; decide)
    have hx : ∀ v, env_long.execvp (runner_find_path env_long long_path) v = none :=
      fun _ => rfl
    rw [hx, hov]

end Runner
